import Mathlib

/-!
Shallow embedding of the pdfs-to-markdown orchestration pipeline
(`src/utils.py`, `src/pdf_to_markdown/orchestrator.py`,
`src/pdf_to_markdown/data/file_discovery.py`, `src/config.py`).

Strings are modelled as Lean `String`s operated on through their `List Char`
representation; Python regex character classes are modelled at ASCII level
(`\w` as alphanumeric-or-underscore, `\s` as whitespace).  Filesystem state is
modelled explicitly: an imports tree is a flag plus file-name lists, the
exports directory is a list of (name, mtime) entries.  Python exceptions that
escape a function are modelled with `Except`.
-/

namespace PdfsToMarkdown

/-! ### Character classes (ASCII model of Python `re` classes) -/

/-- Model of Python's `\w` character class: alphanumeric or underscore. -/
def isWordChar (c : Char) : Bool := c.isAlphanum || c == '_'

/-- Model of Python's `\s` character class. -/
def isSpaceChar (c : Char) : Bool := c.isWhitespace

/-- Characters left untouched by `re.sub(r'[^\w\s-]', '_', name)`. -/
def keepChar (c : Char) : Bool := isWordChar c || isSpaceChar c || c == '-'

/-- Characters collapsed by `re.sub(r'[\s_]+', '_', sanitized)`. -/
def isCollapsible (c : Char) : Bool := isSpaceChar c || c == '_'

/-- Characters that can appear in a sanitized name: word characters or
hyphens, never whitespace. -/
def goodChar (c : Char) : Bool := (isWordChar c || c == '-') && !isSpaceChar c

/-! ### `pathlib.Path(filename).stem` -/

/-- Split a character list on a separator character (every occurrence). -/
def splitOnChar (sep : Char) : List Char → List (List Char)
  | [] => [[]]
  | c :: rest =>
    let r := splitOnChar sep rest
    if c == sep then [] :: r
    else
      match r with
      | [] => [[c]]
      | h :: t => (c :: h) :: t

/-- Final path component, after dropping empty and `"."` components, as
`pathlib` does when parsing a POSIX path; empty when no component remains. -/
def pathFinalName (l : List Char) : List Char :=
  ((splitOnChar '/' l).filter (fun p => !p.isEmpty && p != ['.'])).getLast?.getD []

/-- Index of the last `'.'` in a character list, if any. -/
def lastDotIdx : List Char → Option Nat
  | [] => none
  | c :: rest =>
    match lastDotIdx rest with
    | some i => some (i + 1)
    | none => if c == '.' then some 0 else none

/-- Strip the suffix from a path's final component the way
`pathlib.PurePath.stem` does: the suffix exists only when the last dot sits
strictly inside the name (index `> 0` and not at the last position). -/
def pySplitExtStem (name : List Char) : List Char :=
  match lastDotIdx name with
  | some i => if 0 < i ∧ i + 1 < name.length then name.take i else name
  | none => name

/-- Model of `pathlib.Path(s).stem`. -/
def pyStem (l : List Char) : List Char := pySplitExtStem (pathFinalName l)

/-! ### `sanitize_filename` (`src/utils.py`, lines 28–50) -/

/-- Model of `re.sub(r'[\s_]+', '_', s)`: every maximal run of whitespace or
underscore characters becomes a single underscore. -/
def collapseRuns : List Char → List Char
  | [] => []
  | [c] => if isCollapsible c then ['_'] else [c]
  | c :: d :: rest =>
    if isCollapsible c && isCollapsible d then collapseRuns (d :: rest)
    else (if isCollapsible c then '_' else c) :: collapseRuns (d :: rest)

/-- Model of `str.strip('_')`: drop leading and trailing underscores. -/
def stripUnderscores (l : List Char) : List Char :=
  (((l.dropWhile (· == '_')).reverse.dropWhile (· == '_'))).reverse

/-- Character-list core of `sanitize_filename`. -/
def sanitizeList (l : List Char) : List Char :=
  stripUnderscores (collapseRuns ((pyStem l).map (fun c => if keepChar c then c else '_')))

/-- Model of `sanitize_filename` (`src/utils.py`): drop the extension, replace
characters outside `[\w\s-]` with underscores, collapse whitespace/underscore
runs, strip boundary underscores, and fall back to `"untitled"` when nothing
remains. -/
def sanitize_filename (s : String) : String :=
  if (sanitizeList s.data).isEmpty then "untitled" else String.mk (sanitizeList s.data)

/-! ### Configuration (`src/config.py`) -/

/-- Model of `SUPPORTED_FORMATS` (`src/config.py`, line 44). -/
def SUPPORTED_FORMATS : List String :=
  [".pdf", ".docx", ".pptx", ".xlsx", ".html", ".md", ".txt"]

/-- Model of `Config.OUTPUT_FILENAME` (`src/config.py`, line 22). -/
def OUTPUT_FILENAME : String := "combined_documents.md"

/-! ### Filesystem model -/

/-- Does the string start with a dot?  Used both for `pathlib`'s hidden-file
exclusion in `glob` and for the `startswith('.')` subdirectory filter in
discovery. -/
def startsWithDot (s : String) : Bool :=
  match s.data with
  | [] => false
  | c :: _ => c == '.'

/-- An entry of the exports directory: file name plus last-modified time. -/
structure ArtifactFile where
  name : String
  mtime : Nat
deriving Repr, DecidableEq

/-- The exports directory as seen by the ledger helpers: an existence flag and
the list of files it holds. -/
structure ExportsDir where
  present : Bool
  files : List ArtifactFile
deriving Repr, DecidableEq

/-- An immediate subdirectory of the imports directory, with the names of the
regular files it contains. -/
structure SubDirEntry where
  name : String
  files : List String
deriving Repr, DecidableEq

/-- The imports directory: existence flag, names of files directly in it, and
its immediate subdirectories. -/
structure ImportsDir where
  present : Bool
  rootFiles : List String
  subdirs : List SubDirEntry
deriving Repr, DecidableEq

/-! ### Conversion Ledger (`src/utils.py`, lines 221–274) -/

/-- Glob match for the pattern `<sanitized folder>_*.md` used by
`check_folder_already_converted` / `get_existing_converted_files`: the name
starts with the sanitized folder name followed by an underscore, and what
remains ends in `.md`. -/
def matchesConvertedName (folderName : String) (artifactName : String) : Bool :=
  let pre := (sanitize_filename folderName) ++ "_"
  pre.data.isPrefixOf artifactName.data
    && (".md").data.isSuffixOf (artifactName.data.drop pre.data.length)

/-- Model of `check_folder_already_converted` (`src/utils.py`, lines 221–247):
true iff the exports directory exists and holds at least one artifact matching
`<sanitized folder>_*.md`. -/
def check_folder_already_converted (folderName : String) (exportsDir : ExportsDir) : Bool :=
  exportsDir.present
    && exportsDir.files.any (fun f => matchesConvertedName folderName f.name)

/-- Insertion step of a stable sort by last-modified time, newest first. -/
def insertByMtimeDesc (a : ArtifactFile) : List ArtifactFile → List ArtifactFile
  | [] => [a]
  | b :: rest =>
    if b.mtime > a.mtime then b :: insertByMtimeDesc a rest else a :: b :: rest

/-- Stable sort by last-modified time, newest first, modelling
`list.sort(key=lambda x: x.stat().st_mtime, reverse=True)`. -/
def sortByMtimeDesc (l : List ArtifactFile) : List ArtifactFile :=
  l.foldr insertByMtimeDesc []

/-- Model of `get_existing_converted_files` (`src/utils.py`, lines 250–274):
all artifacts matching `<sanitized folder>_*.md`, sorted newest first; empty
when the exports directory does not exist. -/
def get_existing_converted_files (folderName : String) (exportsDir : ExportsDir) :
    List ArtifactFile :=
  if !exportsDir.present then []
  else sortByMtimeDesc (exportsDir.files.filter (fun f => matchesConvertedName folderName f.name))

/-! ### Document Locator (`src/utils.py`, lines 140–194) -/

/-- Discovery failures, mirroring the exceptions raised by
`discover_processing_folders`: `FileNotFoundError` and `ValueError`. -/
inductive DiscoveryError where
  | notFound (msg : String)
  | noSupportedFiles (msg : String)
deriving Repr, DecidableEq

/-- Glob match for `*<ext>` over the supported-format set, with `glob`'s
hidden-file exclusion: supported files end in a supported extension and do not
start with a dot. -/
def isSupportedFile (name : String) : Bool :=
  !startsWithDot name && SUPPORTED_FORMATS.any (fun ext => ext.data.isSuffixOf name.data)

/-- Lexicographic comparison of character lists by code point, modelling
Python string comparison. -/
def listCharLe : List Char → List Char → Bool
  | [], _ => true
  | _ :: _, [] => false
  | a :: as, b :: bs =>
    if a.toNat < b.toNat then true
    else if b.toNat < a.toNat then false
    else listCharLe as bs

/-- Lexicographic string comparison by code point. -/
def strLe (a b : String) : Bool := listCharLe a.data b.data

/-- Insertion step of lexicographic string sorting. -/
def insertStrAsc (a : String) : List String → List String
  | [] => [a]
  | b :: rest => if strLe a b then a :: b :: rest else b :: insertStrAsc a rest

/-- Model of Python's `sorted` on same-directory paths: lexicographic sort of
the file names. -/
def sortStrings (l : List String) : List String :=
  l.foldr insertStrAsc []

/-- Supported files of one directory listing, in the deterministic order
discovery stores them (`sorted(...)`). -/
def folderFilesOf (names : List String) : List String :=
  sortStrings (names.filter isSupportedFile)

/-- Join strings with `", "`, modelling `", ".join(...)`. -/
def joinCommaSpace : List String → String
  | [] => ""
  | [s] => s
  | s :: rest => s ++ ", " ++ joinCommaSpace rest

/-- Message of the `FileNotFoundError` raised by discovery (path elided). -/
def importsNotFoundMessage : String := "Imports directory not found"

/-- Message of the `ValueError` raised when no supported files exist, naming
the sorted supported-format set as the code does. -/
def noSupportedFilesMessage : String :=
  "No supported files found in imports directory or its subdirectories. "
    ++ "Supported formats: " ++ joinCommaSpace (sortStrings SUPPORTED_FORMATS)

instance {ε α : Type} [DecidableEq ε] [DecidableEq α] : DecidableEq (Except ε α) := fun
  | .ok a, .ok b => decidable_of_iff (a = b) (by simp)
  | .ok _, .error _ => isFalse (by simp)
  | .error _, .ok _ => isFalse (by simp)
  | .error e, .error f => decidable_of_iff (e = f) (by simp)

/-- The `processing_map` that discovery builds: root-level supported files
under the `"_root"` sentinel first, then each non-hidden immediate
subdirectory with supported files, in listing order. -/
def discoveryMap (d : ImportsDir) : List (String × List String) :=
  (if (folderFilesOf d.rootFiles).isEmpty then []
    else [("_root", folderFilesOf d.rootFiles)])
    ++ d.subdirs.filterMap (fun sd =>
        if startsWithDot sd.name then none
        else
          if (folderFilesOf sd.files).isEmpty then none
          else some (sd.name, folderFilesOf sd.files))

/-- Model of `discover_processing_folders` (`src/utils.py`, lines 140–194),
also the body of `discover_processing_folders_grouped`: build the processing
map; fail when the imports directory is missing or the map comes out
empty. -/
def discover_processing_folders (d : ImportsDir) :
    Except DiscoveryError (List (String × List String)) :=
  if !d.present then .error (.notFound importsNotFoundMessage)
  else if (discoveryMap d).isEmpty then .error (.noSupportedFiles noSupportedFilesMessage)
  else .ok (discoveryMap d)

/-- Does `pat` occur as a contiguous segment of the second list? -/
def listContainsSeg (pat : List Char) : List Char → Bool
  | [] => pat.isEmpty
  | c :: rest => pat.isPrefixOf (c :: rest) || listContainsSeg pat rest

/-! ### Run Result (`src/pdf_to_markdown/model/result.py`) -/

/-- Model of `ConversionResult`: the per-run accumulator.  Mappings keep
insertion order, so they are association lists; timing and page/image counters
are omitted. -/
structure ConversionResult where
  success : Bool := false
  output_files : List String := []
  processed_folders : List (String × List String) := []
  skipped_folders : List (String × List String) := []
  failed_files : List String := []
  error_message : Option String := none
deriving Repr, DecidableEq

/-! ### Batch Orchestrator (`src/pdf_to_markdown/orchestrator.py`, lines 66–146) -/

/-- An output artifact written by this run: its name and the markdown blobs of
the successfully transformed files, in order (the fixed header and separators
are determined by these). -/
structure WrittenArtifact where
  name : String
  sections : List String
deriving Repr, DecidableEq

/-- Exceptions that escape `Orchestrator.run`: discovery errors, the
`TypeError` from `exports_path / None` when the root group is reached with no
`output_filename`, and a summary-report write failure. -/
inductive RunError where
  | discovery (e : DiscoveryError)
  | rootOutputNameNone
  | reportWrite
deriving Repr, DecidableEq

/-- Environment of one `run` call: imports tree, exports-directory contents
after the initial `mkdir` (so the directory itself is present), the
modification time stamped on files written by this run, the
`SKIP_ALREADY_CONVERTED` flag, the Transformation Port (`none` models a
transformation failure), which output paths can be opened for writing, and
whether the summary report write succeeds. -/
structure RunEnv where
  imports : ImportsDir
  exportsFiles : List ArtifactFile
  writeMtime : Nat
  skipAlreadyConverted : Bool
  transform : String → String → Option String
  writeOk : String → Bool
  reportOk : Bool

/-- Mutable state threaded through the folder loop. -/
structure RunState where
  result : ConversionResult := {}
  written : List WrittenArtifact := []
  transformCalls : List (String × String) := []
deriving Repr, DecidableEq

/-- The exports directory as the ledger sees it while the loop runs: it exists
(created by `mkdir(parents=True, exist_ok=True)`), holds the pre-existing
files except those truncated by this run's writes, and the files this run has
written so far, stamped with this run's modification time. -/
def RunState.exportsNow (env : RunEnv) (st : RunState) : ExportsDir :=
  ⟨true,
    env.exportsFiles.filter (fun a => !(st.written.any (fun w => w.name == a.name)))
      ++ st.written.map (fun w => ⟨w.name, env.writeMtime⟩)⟩

/-- Per-file loop of `run` (lines 112–132): each file is transformed once; a
success contributes its name to `processed` and its blob to the artifact, a
failure contributes its name to `failed` and the loop continues.  Returns
(processed names, failed names, written sections). -/
def transformFolder (transform : String → String → Option String) (folderName : String) :
    List String → List String × List String × List String
  | [] => ([], [], [])
  | f :: rest =>
    let r := transformFolder transform folderName rest
    match transform folderName f with
    | some blob => (f :: r.1, r.2.1, blob :: r.2.2)
    | none => (r.1, f :: r.2.1, r.2.2)

/-- Output-file name selection of `run` (lines 96–98): the `output_filename`
argument for the `"_root"` sentinel, else `<folder>.md`; `none` means the
`TypeError` crash of building `exports_path / None`. -/
def outputNameFor (folderName : String) (output_filename : Option String) : Option String :=
  if folderName == "_root" then output_filename else some (folderName ++ ".md")

/-- Should this folder be skipped, given the loop state?  Line 84 of `run`. -/
def skipsFolder (env : RunEnv) (st : RunState) (folderName : String) : Bool :=
  env.skipAlreadyConverted
    && check_folder_already_converted folderName (st.exportsNow env)

/-- Folder loop of `run` (lines 83–138): skip an already-converted folder
(recording its filenames as skipped and extending `output_files` with all
existing artifacts), otherwise open the output file (an open failure abandons
the folder silently), transform each file, and record the artifact. -/
def processGroups (env : RunEnv) (output_filename : Option String) :
    List (String × List String) → RunState → Except RunError RunState
  | [], st => .ok st
  | (folderName, files) :: rest, st =>
    if skipsFolder env st folderName then
      let existing := get_existing_converted_files folderName (st.exportsNow env)
      processGroups env output_filename rest
        { st with
          result := { st.result with
            skipped_folders := st.result.skipped_folders ++ [(folderName, files)]
            output_files := st.result.output_files ++ existing.map (·.name) } }
    else
      match outputNameFor folderName output_filename with
      | none => .error .rootOutputNameNone
      | some outName =>
        if env.writeOk outName then
          let t := transformFolder env.transform folderName files
          processGroups env output_filename rest
            { result := { st.result with
                processed_folders :=
                  if t.1.isEmpty then st.result.processed_folders
                  else st.result.processed_folders ++ [(folderName, t.1)]
                failed_files := st.result.failed_files ++ t.2.1
                output_files := st.result.output_files ++ [outName] }
              written := st.written ++ [⟨outName, t.2.2⟩]
              transformCalls := st.transformCalls ++ files.map (fun f => (folderName, f)) }
        else
          processGroups env output_filename rest st

/-- What `run` hands back when it returns normally. -/
structure RunOutcome where
  result : ConversionResult
  written : List WrittenArtifact
  transformCalls : List (String × String)
deriving Repr, DecidableEq

/-- Model of `Orchestrator.run` (lines 66–146): discover (letting discovery
exceptions propagate), loop over the folder groups, set
`success = bool(output_files)`, then write the summary report (letting a
report write failure propagate). -/
def run (env : RunEnv) (output_filename : Option String) : Except RunError RunOutcome :=
  match discover_processing_folders env.imports with
  | .error e => .error (.discovery e)
  | .ok processingMap =>
    match processGroups env output_filename processingMap {} with
    | .error e => .error e
    | .ok st =>
      let finalResult := { st.result with success := !st.result.output_files.isEmpty }
      if env.reportOk then
        .ok { result := finalResult, written := st.written, transformCalls := st.transformCalls }
      else
        .error .reportWrite

/-! ### Concrete environments used by counterexamples and witnesses -/

/-- Imports directory absent. -/
def envMissingImports : RunEnv :=
  { imports := ⟨false, [], []⟩
    exportsFiles := []
    writeMtime := 10
    skipAlreadyConverted := true
    transform := fun _ f => some ("MD:" ++ f)
    writeOk := fun _ => true
    reportOk := true }

/-- Imports directory present but holding no supported files. -/
def envEmptyImports : RunEnv :=
  { imports := ⟨true, ["x.bin"], [⟨".git", ["a.pdf"]⟩]⟩
    exportsFiles := []
    writeMtime := 10
    skipAlreadyConverted := true
    transform := fun _ f => some ("MD:" ++ f)
    writeOk := fun _ => true
    reportOk := true }

/-- Spec scenario: `a.pdf` and `b.pdf` in the root, `q.pdf` in `reports/`;
empty exports directory, every transformation succeeds, all writes succeed. -/
def envScenario : RunEnv :=
  { imports := ⟨true, ["a.pdf", "b.pdf"], [⟨"reports", ["q.pdf"]⟩]⟩
    exportsFiles := []
    writeMtime := 10
    skipAlreadyConverted := true
    transform := fun _ f => some ("MD:" ++ f)
    writeOk := fun _ => true
    reportOk := true }

/-- Like `envScenario` but the summary-report write fails. -/
def envReportFail : RunEnv := { envScenario with reportOk := false }

/-- One root file, output file cannot be opened. -/
def envRootAbandoned : RunEnv :=
  { imports := ⟨true, ["a.pdf"], []⟩
    exportsFiles := []
    writeMtime := 10
    skipAlreadyConverted := false
    transform := fun _ f => some ("MD:" ++ f)
    writeOk := fun _ => false
    reportOk := true }

/-- Scenario environment where only `b.pdf` fails transformation. -/
def envPartial : RunEnv :=
  { envScenario with
    transform := fun _ f => if f == "b.pdf" then none else some ("MD:" ++ f) }

/-- Exports-directory contents after a completed run: pre-existing files not
truncated by this run's writes, the artifacts this run wrote, and the summary
report `processing_summary_<timestamp>.md`. -/
def exportsAfterRun (env : RunEnv) (out : RunOutcome) (reportTs : Nat) : List ArtifactFile :=
  env.exportsFiles.filter (fun a => !(out.written.any (fun w => w.name == a.name)))
    ++ out.written.map (fun w => ⟨w.name, env.writeMtime⟩)
    ++ [⟨"processing_summary_" ++ toString reportTs ++ ".md", env.writeMtime⟩]

/-- Single subfolder `docs/` holding `a.pdf`; empty exports directory; every
transformation succeeds. -/
def envDocs : RunEnv :=
  { imports := ⟨true, [], [⟨"docs", ["a.pdf"]⟩]⟩
    exportsFiles := []
    writeMtime := 10
    skipAlreadyConverted := true
    transform := fun _ f => some ("MD:" ++ f)
    writeOk := fun _ => true
    reportOk := true }

/-- Outcome of the first run over `envDocs`. -/
def outDocs1 : RunOutcome :=
  { result :=
      { success := true
        output_files := ["docs.md"]
        processed_folders := [("docs", ["a.pdf"])]
        skipped_folders := []
        failed_files := []
        error_message := none }
    written := [⟨"docs.md", ["MD:a.pdf"]⟩]
    transformCalls := [("docs", "a.pdf")] }

/-- The same environment on the second run: unchanged input tree, exports
directory now holding what the first run wrote. -/
def envDocsRerun : RunEnv :=
  { envDocs with exportsFiles := exportsAfterRun envDocs outDocs1 11, writeMtime := 12 }

/-- Single subfolder `docs/` holding `a.pdf`; exports directory already holds
two prior artifacts matching the `docs_*.md` ledger pattern. -/
def envDocsTwoArtifacts : RunEnv :=
  { imports := ⟨true, [], [⟨"docs", ["a.pdf"]⟩]⟩
    exportsFiles :=
      [⟨"docs_2024-01-01_00-00-00.md", 5⟩, ⟨"docs_2024-02-02_00-00-00.md", 9⟩]
    writeMtime := 20
    skipAlreadyConverted := true
    transform := fun _ f => some ("MD:" ++ f)
    writeOk := fun _ => true
    reportOk := true }

/-! ### Helper lemmas about the folder loop -/

/-- The folder loop never touches `error_message`. -/
theorem processGroups_error_message (env : RunEnv) (ofn : Option String) :
    ∀ (m : List (String × List String)) (st st' : RunState),
      processGroups env ofn m st = .ok st' →
      st'.result.error_message = st.result.error_message := by
  intro m
  induction m with
  | nil =>
    intro st st' h
    simp [processGroups] at h
    simp [← h]
  | cons p rest ih =>
    intro st st' h
    obtain ⟨folderName, files⟩ := p
    by_cases hs : skipsFolder env st folderName
    · simp [processGroups, hs] at h
      exact (ih _ _ h).trans rfl
    · simp [processGroups, hs] at h
      cases hn : outputNameFor folderName ofn with
      | none => simp [hn] at h
      | some outName =>
        simp [hn] at h
        by_cases hw : env.writeOk outName
        · simp [hw] at h
          exact (ih _ _ h).trans rfl
        · simp [hw] at h
          exact (ih _ _ h).trans rfl

/-- The folder loop does not depend on the `reportOk` component of the
environment. -/
theorem processGroups_reportOk_irrel (env : RunEnv) (b : Bool) (ofn : Option String) :
    ∀ (m : List (String × List String)) (st : RunState),
      processGroups { env with reportOk := b } ofn m st = processGroups env ofn m st := by
  intro m
  induction m with
  | nil => intro st; rfl
  | cons p rest ih =>
    intro st
    obtain ⟨folderName, files⟩ := p
    show processGroups { env with reportOk := b } ofn ((folderName, files) :: rest) st = _
    simp only [processGroups]
    have hsk : skipsFolder { env with reportOk := b } st folderName
        = skipsFolder env st folderName := rfl
    rw [hsk]
    by_cases hs : skipsFolder env st folderName
    · simp only [hs, if_true]
      exact ih _
    · simp only [hs, if_false]
      cases outputNameFor folderName ofn with
      | none => rfl
      | some outName =>
        simp only []
        by_cases hw : env.writeOk outName
        · show (if env.writeOk outName then _ else _) = (if env.writeOk outName then _ else _)
          simp only [hw, if_true]
          exact ih _
        · show (if env.writeOk outName then _ else _) = (if env.writeOk outName then _ else _)
          simp only [hw, if_false]
          exact ih _

/-! ### Claim C1 -/

/-- C1, counterexample: with a missing imports directory, `run` does not
return a `RunResult` at all — the `FileNotFoundError` raised by discovery
propagates out of the Orchestrator's entry point, so no `errorMessage` is ever
surfaced. -/
theorem run_missing_imports_raises :
    run envMissingImports none
      = .error (.discovery (.notFound importsNotFoundMessage)) := by decide

/-- C1 as amended: when discovery fails (missing input root or no supported
files), `run` propagates the discovery exception to its caller instead of
returning a `RunResult`; no folders are processed and `error_message` is never
assigned. -/
theorem run_propagates_discovery_error (env : RunEnv) (ofn : Option String)
    (e : DiscoveryError)
    (h : discover_processing_folders env.imports = .error e) :
    run env ofn = .error (.discovery e) := by
  simp [run, h]

/-- Witness for `run_propagates_discovery_error` at a concrete environment
with no supported files. -/
theorem run_propagates_discovery_error_witness :
    run envEmptyImports none
      = .error (.discovery (.noSupportedFiles noSupportedFilesMessage)) :=
  run_propagates_discovery_error envEmptyImports none _ (by decide)

/-! ### Claim C2 -/

/-- C2: the run is **not** idempotent.  The first run over an input tree with
folder `docs` writes the artifact `docs.md` and returns `outDocs1`; the
second run over the unchanged tree, with `SKIP_ALREADY_CONVERTED` enabled and
the first run's outputs present in the exports directory, skips nothing and
invokes the Transformation Port again, because the artifact name `docs.md`
written by `run` never matches the ledger pattern `docs_*.md` — the pattern
that the timestamped naming scheme (`generate_timestamp_filename`, imported
by the orchestrator but unused) would have produced. -/
theorem rerun_reprocesses_instead_of_skipping :
    run envDocs (some OUTPUT_FILENAME) = .ok outDocs1
      ∧ run envDocsRerun (some OUTPUT_FILENAME) = .ok outDocs1
      ∧ outDocs1.result.skipped_folders = []
      ∧ outDocs1.transformCalls = [("docs", "a.pdf")]
      ∧ matchesConvertedName "docs" "docs.md" = false
      ∧ matchesConvertedName "docs" "docs_2024-01-01_00-00-00.md" = true := by decide

/-! ### Claim C3 -/

/-- C3, counterexample: when two prior artifacts exist for a skipped folder,
`run` appends **both** of them to `output_files` (newest first), not exactly
one newest path as the claim states. -/
theorem skipped_folder_appends_two_artifacts :
    run envDocsTwoArtifacts (some OUTPUT_FILENAME)
      = .ok
        { result :=
            { success := true
              output_files :=
                ["docs_2024-02-02_00-00-00.md", "docs_2024-01-01_00-00-00.md"]
              processed_folders := []
              skipped_folders := [("docs", ["a.pdf"])]
              failed_files := []
              error_message := none }
          written := []
          transformCalls := [] } := by decide

/-- Permutation behaviour of one insertion step of the mtime sort. -/
theorem insertByMtimeDesc_perm (a : ArtifactFile) :
    ∀ l : List ArtifactFile, (insertByMtimeDesc a l).Perm (a :: l) := by
  intro l
  induction l with
  | nil => simp [insertByMtimeDesc]
  | cons b rest ih =>
    by_cases h : b.mtime > a.mtime
    · simp only [insertByMtimeDesc, h, if_true]
      exact (ih.cons b).trans (List.Perm.swap a b rest)
    · simp only [insertByMtimeDesc, h, if_false]
      exact List.Perm.refl _

/-- The mtime sort permutes its input. -/
theorem sortByMtimeDesc_perm :
    ∀ l : List ArtifactFile, (sortByMtimeDesc l).Perm l := by
  intro l
  induction l with
  | nil => simp [sortByMtimeDesc]
  | cons a rest ih =>
    show (insertByMtimeDesc a (sortByMtimeDesc rest)).Perm (a :: rest)
    exact (insertByMtimeDesc_perm a (sortByMtimeDesc rest)).trans (ih.cons a)

/-- Head shape of one insertion step. -/
theorem insertByMtimeDesc_head (a : ArtifactFile) :
    ∀ (l : List ArtifactFile) (c : ArtifactFile),
      (insertByMtimeDesc a l).head? = some c → c = a ∨ l.head? = some c := by
  intro l c h
  cases l with
  | nil => simp [insertByMtimeDesc] at h; exact Or.inl h.symm
  | cons b rest =>
    by_cases hb : b.mtime > a.mtime
    · simp only [insertByMtimeDesc, hb, if_true, List.head?_cons] at h
      exact Or.inr (by simp [h])
    · simp only [insertByMtimeDesc, hb, if_false, List.head?_cons] at h
      injection h with h
      exact Or.inl h.symm

/-- One insertion step preserves the newest-first ordering. -/
theorem insertByMtimeDesc_sorted (a : ArtifactFile) :
    ∀ l : List ArtifactFile,
      List.Chain' (fun x y => y.mtime ≤ x.mtime) l →
      List.Chain' (fun x y => y.mtime ≤ x.mtime) (insertByMtimeDesc a l) := by
  intro l
  induction l with
  | nil => intro _; simp [insertByMtimeDesc]
  | cons b rest ih =>
    intro h
    rw [List.chain'_cons'] at h
    by_cases hb : b.mtime > a.mtime
    · simp only [insertByMtimeDesc, hb, if_true]
      rw [List.chain'_cons']
      refine ⟨?_, ih h.2⟩
      intro c hc
      rcases insertByMtimeDesc_head a rest c hc with hca | hcr
      · subst hca; exact Nat.le_of_lt hb
      · exact h.1 c hcr
    · simp only [insertByMtimeDesc, hb, if_false]
      rw [List.chain'_cons']
      refine ⟨?_, ?_⟩
      · intro c hc
        simp at hc
        subst hc
        exact Nat.le_of_not_lt hb
      · rw [List.chain'_cons']
        exact h

/-- The mtime sort yields a newest-first list. -/
theorem sortByMtimeDesc_sorted :
    ∀ l : List ArtifactFile,
      List.Chain' (fun x y => y.mtime ≤ x.mtime) (sortByMtimeDesc l) := by
  intro l
  induction l with
  | nil => simp [sortByMtimeDesc]
  | cons a rest ih => exact insertByMtimeDesc_sorted a (sortByMtimeDesc rest) ih

/-- C3 as amended: for a folder group the Ledger reports as already
converted, the loop appends the group's filenames to `skipped_folders` and
appends **all** existing artifacts for that folder — sorted newest first, so
the newest is the first of them — to `output_files`, then continues with the
next group without touching the Transformation Port; at least one such
artifact exists. -/
theorem skip_step_appends_all_existing (env : RunEnv) (ofn : Option String)
    (folderName : String) (files : List String)
    (rest : List (String × List String)) (st : RunState)
    (h : skipsFolder env st folderName = true) :
    processGroups env ofn ((folderName, files) :: rest) st
        = processGroups env ofn rest
            { st with
              result := { st.result with
                skipped_folders := st.result.skipped_folders ++ [(folderName, files)]
                output_files := st.result.output_files
                  ++ (get_existing_converted_files folderName (st.exportsNow env)).map
                      (·.name) } }
      ∧ get_existing_converted_files folderName (st.exportsNow env) ≠ []
      ∧ List.Chain' (fun x y => y.mtime ≤ x.mtime)
          (get_existing_converted_files folderName (st.exportsNow env))
      ∧ (get_existing_converted_files folderName (st.exportsNow env)).Perm
          ((st.exportsNow env).files.filter
            (fun f => matchesConvertedName folderName f.name)) := by
  have hfilter :
      get_existing_converted_files folderName (st.exportsNow env)
        = sortByMtimeDesc ((st.exportsNow env).files.filter
            (fun f => matchesConvertedName folderName f.name)) := by
    simp [get_existing_converted_files, RunState.exportsNow]
  refine ⟨?_, ?_, ?_, ?_⟩
  · simp [processGroups, h]
  · have hchk : check_folder_already_converted folderName (st.exportsNow env) = true := by
      have := h
      simp only [skipsFolder, Bool.and_eq_true] at this
      exact this.2
    simp only [check_folder_already_converted, Bool.and_eq_true, List.any_eq_true] at hchk
    obtain ⟨f, hf, hmatch⟩ := hchk.2
    intro hempty
    have hperm := (sortByMtimeDesc_perm ((st.exportsNow env).files.filter
      (fun g => matchesConvertedName folderName g.name)))
    rw [← hfilter, hempty] at hperm
    have : f ∈ ([] : List ArtifactFile) := hperm.mem_iff.mpr (by
      simp only [List.mem_filter]
      exact ⟨hf, hmatch⟩)
    simp at this
  · rw [hfilter]; exact sortByMtimeDesc_sorted _
  · rw [hfilter]; exact sortByMtimeDesc_perm _

/-- Witness for `skip_step_appends_all_existing` at the two-artifact
environment. -/
theorem skip_step_appends_all_existing_witness :
    processGroups envDocsTwoArtifacts (some OUTPUT_FILENAME) [("docs", ["a.pdf"])] {}
        = processGroups envDocsTwoArtifacts (some OUTPUT_FILENAME) []
            { RunState.mk {} [] [] with
              result := { ({} : ConversionResult) with
                skipped_folders := [] ++ [("docs", ["a.pdf"])]
                output_files := [] ++ (get_existing_converted_files "docs"
                  ((RunState.mk {} [] []).exportsNow envDocsTwoArtifacts)).map (·.name) } }
      ∧ get_existing_converted_files "docs"
          ((RunState.mk {} [] []).exportsNow envDocsTwoArtifacts) ≠ []
      ∧ List.Chain' (fun x y => y.mtime ≤ x.mtime)
          (get_existing_converted_files "docs"
            ((RunState.mk {} [] []).exportsNow envDocsTwoArtifacts))
      ∧ (get_existing_converted_files "docs"
          ((RunState.mk {} [] []).exportsNow envDocsTwoArtifacts)).Perm
          (((RunState.mk {} [] []).exportsNow envDocsTwoArtifacts).files.filter
            (fun f => matchesConvertedName "docs" f.name)) :=
  skip_step_appends_all_existing envDocsTwoArtifacts (some OUTPUT_FILENAME)
    "docs" ["a.pdf"] [] {} (by decide)

/-! ### Claim C4 -/

/-- C4, counterexample: in an environment where the whole conversion succeeds
but the summary-report write fails, `run` raises the write error past the
Orchestrator's boundary instead of returning the `RunResult`. -/
theorem report_failure_raises_cex :
    run envReportFail (some "combined_root.md") = .error .reportWrite := by decide

/-- C4 as amended: a failure to write the summary report propagates out of
`run` — the caller gets the exception and loses the `RunResult` — but it
happens after all folder processing and after `success` is computed from
`output_files`, so it does not alter them. -/
theorem report_failure_raises (env : RunEnv) (ofn : Option String) (out : RunOutcome)
    (h : run env ofn = .ok out) :
    run { env with reportOk := false } ofn = .error .reportWrite
      ∧ out.result.success = !out.result.output_files.isEmpty := by
  cases hd : discover_processing_folders env.imports with
  | error e => simp [run, hd] at h
  | ok m =>
    cases hp : processGroups env ofn m {} with
    | error e => simp [run, hd, hp] at h
    | ok st =>
      by_cases hr : env.reportOk
      · have hout : run env ofn
            = .ok ⟨{ st.result with success := !st.result.output_files.isEmpty },
                st.written, st.transformCalls⟩ := by
          simp [run, hd, hp, hr]
        rw [hout] at h
        injection h with h2
        constructor
        · simp [run, hd, processGroups_reportOk_irrel, hp]
        · rw [← h2]
      · simp [run, hd, hp, hr] at h

/-- Witness for `report_failure_raises` at the concrete scenario
environment. -/
theorem report_failure_raises_witness :
    run { envScenario with reportOk := false } (some "combined_root.md")
        = .error .reportWrite
      ∧ (true : Bool) = true := by
  have h := report_failure_raises envScenario (some "combined_root.md")
    { result :=
        { success := true
          output_files := ["combined_root.md", "reports.md"]
          processed_folders := [("_root", ["a.pdf", "b.pdf"]), ("reports", ["q.pdf"])]
          skipped_folders := []
          failed_files := []
          error_message := none }
      written :=
        [⟨"combined_root.md", ["MD:a.pdf", "MD:b.pdf"]⟩, ⟨"reports.md", ["MD:q.pdf"]⟩]
      transformCalls := [("_root", "a.pdf"), ("_root", "b.pdf"), ("reports", "q.pdf")] }
    (by decide)
  exact ⟨h.1, rfl⟩

/-! ### Claim C5 -/

/-- The per-file loop classifies every file of the group: successes in input
order, failures in input order, and the successful blobs in input order. -/
theorem transformFolder_eq (tr : String → String → Option String) (folderName : String) :
    ∀ files : List String,
      transformFolder tr folderName files
        = (files.filter (fun f => (tr folderName f).isSome),
           files.filter (fun f => (tr folderName f).isNone),
           files.filterMap (tr folderName)) := by
  intro files
  induction files with
  | nil => rfl
  | cons f rest ih =>
    simp only [transformFolder, ih]
    cases h : tr folderName f with
    | some blob => simp [List.filter_cons, List.filterMap_cons, h]
    | none => simp [List.filter_cons, List.filterMap_cons, h]

/-- Successful sections and failed files of a group partition its length. -/
theorem sections_add_failures_length (tr : String → String → Option String)
    (folderName : String) :
    ∀ files : List String,
      (files.filterMap (tr folderName)).length
          + (files.filter (fun f => (tr folderName f).isNone)).length
        = files.length := by
  intro files
  induction files with
  | nil => rfl
  | cons f rest ih =>
    cases h : tr folderName f with
    | some blob =>
      simp only [List.filterMap_cons, List.filter_cons, h, Option.isNone_some,
        Bool.false_eq_true, if_false, List.length_cons]
      omega
    | none =>
      simp only [List.filterMap_cons, List.filter_cons, h, Option.isNone_none,
        if_true, List.length_cons]
      omega

/-- Successful sections correspond one-to-one to files whose transformation
succeeded. -/
theorem sections_length_eq_successes (tr : String → String → Option String)
    (folderName : String) :
    ∀ files : List String,
      (files.filterMap (tr folderName)).length
        = (files.filter (fun f => (tr folderName f).isSome)).length := by
  intro files
  induction files with
  | nil => rfl
  | cons f rest ih =>
    cases h : tr folderName f with
    | some blob =>
      simp only [List.filterMap_cons, List.filter_cons, h, Option.isSome_some,
        if_true, List.length_cons]
      omega
    | none =>
      simp only [List.filterMap_cons, List.filter_cons, h, Option.isSome_none,
        Bool.false_eq_true, if_false]
      exact ih

/-- The `success` flag of a normal return is exactly "some output artifact was
recorded". -/
theorem run_success_eq (env : RunEnv) (ofn : Option String) (out : RunOutcome)
    (h : run env ofn = .ok out) :
    out.result.success = !out.result.output_files.isEmpty := by
  cases hd : discover_processing_folders env.imports with
  | error e => simp [run, hd] at h
  | ok m =>
    cases hp : processGroups env ofn m {} with
    | error e => simp [run, hd, hp] at h
    | ok st =>
      by_cases hr : env.reportOk
      · have hout : run env ofn
            = .ok ⟨{ st.result with success := !st.result.output_files.isEmpty },
                st.written, st.transformCalls⟩ := by
          simp [run, hd, hp, hr]
        rw [hout] at h
        injection h with h2
        rw [← h2]
      · simp [run, hd, hp, hr] at h

/-- C5: in a folder group of size `M` where `N < M` files fail transformation,
each failing file is recorded in `failed_files` and the loop continues; the
folder's artifact still holds the `M − N` successfully transformed sections
(in particular at least one); and a normally returning run is successful
whenever any artifact anywhere was produced. -/
theorem per_file_failure_isolation (env : RunEnv) (ofn : Option String)
    (folderName : String) (files : List String)
    (rest : List (String × List String)) (st : RunState)
    (outName : String) (out : RunOutcome)
    (hskip : skipsFolder env st folderName = false)
    (hname : outputNameFor folderName ofn = some outName)
    (hwrite : env.writeOk outName = true)
    (hNM : (files.filter (fun f => (env.transform folderName f).isNone)).length
      < files.length) :
    processGroups env ofn ((folderName, files) :: rest) st
        = processGroups env ofn rest
            { result := { st.result with
                processed_folders := st.result.processed_folders
                  ++ [(folderName, files.filter (fun f => (env.transform folderName f).isSome))]
                failed_files := st.result.failed_files
                  ++ files.filter (fun f => (env.transform folderName f).isNone)
                output_files := st.result.output_files ++ [outName] }
              written := st.written
                ++ [⟨outName, files.filterMap (env.transform folderName)⟩]
              transformCalls := st.transformCalls
                ++ files.map (fun f => (folderName, f)) }
      ∧ (files.filterMap (env.transform folderName)).length
          = files.length
            - (files.filter (fun f => (env.transform folderName f).isNone)).length
      ∧ files.filterMap (env.transform folderName) ≠ []
      ∧ (run env ofn = .ok out → out.result.output_files ≠ []
          → out.result.success = true) := by
  have hlen := sections_add_failures_length env.transform folderName files
  have heq := sections_length_eq_successes env.transform folderName files
  have hsucc : files.filter (fun f => (env.transform folderName f).isSome) ≠ [] := by
    intro hempty
    have h0 : (files.filter (fun f => (env.transform folderName f).isSome)).length = 0 := by
      rw [hempty]; rfl
    omega
  refine ⟨?_, by omega, ?_, ?_⟩
  · simp only [processGroups, hskip, Bool.false_eq_true, if_false, hname, hwrite, if_true]
    rw [transformFolder_eq]
    simp only [List.isEmpty_eq_true, hsucc, if_false]
  · intro hempty
    have h0 : (files.filterMap (env.transform folderName)).length = 0 := by
      rw [hempty]; rfl
    omega
  · intro hrun hne
    rw [run_success_eq env ofn out hrun]
    simp [List.isEmpty_eq_true, hne]

/-- Witness for `per_file_failure_isolation`: in the two-file root group with
`b.pdf` failing, the artifact holds exactly one section. -/
theorem per_file_failure_isolation_witness :
    (["a.pdf", "b.pdf"].filterMap (envPartial.transform "_root")).length
      = ["a.pdf", "b.pdf"].length
        - (["a.pdf", "b.pdf"].filter
            (fun f => (envPartial.transform "_root" f).isNone)).length :=
  (per_file_failure_isolation envPartial (some "combined_root.md") "_root"
    ["a.pdf", "b.pdf"] [("reports", ["q.pdf"])] {} "combined_root.md"
    (RunOutcome.mk {} [] [])
    (by decide) (by decide) (by decide) (by decide)).2.1

/-! ### Claim C6 -/

/-- The folder loop only appends to the recorded lists, and every appended
skipped entry is a group of the processed map, while appended processed
entries and transform calls carry keys of the processed map. -/
theorem pg_shape (env : RunEnv) (ofn : Option String) :
    ∀ (m : List (String × List String)) (st st' : RunState),
      processGroups env ofn m st = .ok st' →
      ∃ ds dp df dc,
        st'.result.skipped_folders = st.result.skipped_folders ++ ds
        ∧ st'.result.processed_folders = st.result.processed_folders ++ dp
        ∧ st'.result.failed_files = st.result.failed_files ++ df
        ∧ st'.transformCalls = st.transformCalls ++ dc
        ∧ (∀ q ∈ ds, q ∈ m)
        ∧ (∀ q ∈ dp, q.1 ∈ m.map Prod.fst)
        ∧ (∀ c ∈ dc, c.1 ∈ m.map Prod.fst) := by
  intro m
  induction m with
  | nil =>
    intro st st' h
    simp only [processGroups, Except.ok.injEq] at h
    subst h
    exact ⟨[], [], [], [], by simp, by simp, by simp, by simp, by simp, by simp, by simp⟩
  | cons p rest ih =>
    intro st st' h
    obtain ⟨f, files⟩ := p
    by_cases hs : skipsFolder env st f
    · simp only [processGroups, hs, if_true] at h
      obtain ⟨ds, dp, df, dc, h1, h2, h3, h4, h5, h6, h7⟩ := ih _ _ h
      refine ⟨(f, files) :: ds, dp, df, dc, ?_, ?_, ?_, ?_, ?_, ?_, ?_⟩
      · rw [h1]; simp
      · rw [h2]
      · rw [h3]
      · rw [h4]
      · intro q hq
        rcases List.mem_cons.mp hq with h' | h'
        · exact List.mem_cons.mpr (Or.inl h')
        · exact List.mem_cons.mpr (Or.inr (h5 q h'))
      · intro q hq
        simp only [List.map_cons]
        exact List.mem_cons.mpr (Or.inr (h6 q hq))
      · intro c hc
        simp only [List.map_cons]
        exact List.mem_cons.mpr (Or.inr (h7 c hc))
    · simp only [processGroups, hs, Bool.false_eq_true, if_false] at h
      cases hn : outputNameFor f ofn with
      | none => rw [hn] at h; simp at h
      | some outName =>
        rw [hn] at h
        by_cases hw : env.writeOk outName
        · simp only [hw, if_true] at h
          obtain ⟨ds, dp, df, dc, h1, h2, h3, h4, h5, h6, h7⟩ := ih _ _ h
          by_cases hS : (transformFolder env.transform f files).1.isEmpty
          · rw [show ((transformFolder env.transform f files).1.isEmpty = true) from hS] at h2
            refine ⟨ds, dp, (transformFolder env.transform f files).2.1 ++ df,
              files.map (fun g => (f, g)) ++ dc, ?_, ?_, ?_, ?_, ?_, ?_, ?_⟩
            · rw [h1]
            · rw [h2]
              simp
            · rw [h3]; simp
            · rw [h4]; simp
            · intro q hq
              exact List.mem_cons.mpr (Or.inr (h5 q hq))
            · intro q hq
              simp only [List.map_cons]
              exact List.mem_cons.mpr (Or.inr (h6 q hq))
            · intro c hc
              simp only [List.map_cons]
              rcases List.mem_append.mp hc with h' | h'
              · obtain ⟨g, _, hg2⟩ := List.mem_map.mp h'
                exact List.mem_cons.mpr (Or.inl (by rw [← hg2]))
              · exact List.mem_cons.mpr (Or.inr (h7 c h'))
          · rw [show ((transformFolder env.transform f files).1.isEmpty = false) from
              (by simpa using hS)] at h2
            refine ⟨ds, (f, (transformFolder env.transform f files).1) :: dp,
              (transformFolder env.transform f files).2.1 ++ df,
              files.map (fun g => (f, g)) ++ dc, ?_, ?_, ?_, ?_, ?_, ?_, ?_⟩
            · rw [h1]
            · rw [h2]
              simp
            · rw [h3]; simp
            · rw [h4]; simp
            · intro q hq
              exact List.mem_cons.mpr (Or.inr (h5 q hq))
            · intro q hq
              simp only [List.map_cons]
              rcases List.mem_cons.mp hq with h' | h'
              · exact List.mem_cons.mpr (Or.inl (by rw [h']))
              · exact List.mem_cons.mpr (Or.inr (h6 q h'))
            · intro c hc
              simp only [List.map_cons]
              rcases List.mem_append.mp hc with h' | h'
              · obtain ⟨g, _, hg2⟩ := List.mem_map.mp h'
                exact List.mem_cons.mpr (Or.inl (by rw [← hg2]))
              · exact List.mem_cons.mpr (Or.inr (h7 c h'))
        · simp only [hw, Bool.false_eq_true, if_false] at h
          obtain ⟨ds, dp, df, dc, h1, h2, h3, h4, h5, h6, h7⟩ := ih _ _ h
          refine ⟨ds, dp, df, dc, h1, h2, h3, h4, ?_, ?_, ?_⟩
          · intro q hq
            exact List.mem_cons.mpr (Or.inr (h5 q hq))
          · intro q hq
            simp only [List.map_cons]
            exact List.mem_cons.mpr (Or.inr (h6 q hq))
          · intro c hc
            simp only [List.map_cons]
            exact List.mem_cons.mpr (Or.inr (h7 c hc))

/-- A key equal to the head folder's name lies in the keys of the extended
map. -/
theorem key_mem_head (f : String) (files : List String)
    (rest : List (String × List String)) (x : String) (h : x = f) :
    x ∈ List.map Prod.fst ((f, files) :: rest) := by
  simp only [List.map_cons]
  exact List.mem_cons.mpr (Or.inl h)

/-- A key of the tail map lies in the keys of the extended map. -/
theorem key_mem_rest (f : String) (files : List String)
    (rest : List (String × List String)) (x : String)
    (h : x ∈ List.map Prod.fst rest) :
    x ∈ List.map Prod.fst ((f, files) :: rest) := by
  simp only [List.map_cons]
  exact List.mem_cons.mpr (Or.inr h)

/-- Per-folder bookkeeping of the folder loop: provided the state holds no
entries for the map's keys and the keys are distinct, every group of the map
is either skipped (recorded with exactly its input files, no processed entry,
no transform calls), or handled (no skipped entry; its successes recorded
under its key, its failures all in `failed_files`), or abandoned (no record at
all). -/
theorem pg_partition (env : RunEnv) (ofn : Option String) :
    ∀ (m : List (String × List String)) (st st' : RunState),
      processGroups env ofn m st = .ok st' →
      (m.map Prod.fst).Nodup →
      (∀ q ∈ st.result.skipped_folders, q.1 ∉ m.map Prod.fst) →
      (∀ q ∈ st.result.processed_folders, q.1 ∉ m.map Prod.fst) →
      (∀ c ∈ st.transformCalls, c.1 ∉ m.map Prod.fst) →
      ∀ p ∈ m,
        ((p ∈ st'.result.skipped_folders
            ∧ (∀ q ∈ st'.result.skipped_folders, q.1 = p.1 → q.2 = p.2)
            ∧ (∀ q ∈ st'.result.processed_folders, q.1 ≠ p.1)
            ∧ (∀ c ∈ st'.transformCalls, c.1 ≠ p.1))
          ∨ ((∀ q ∈ st'.result.skipped_folders, q.1 ≠ p.1)
              ∧ (p.2.filter (fun g => (env.transform p.1 g).isSome) ≠ []
                  → (p.1, p.2.filter (fun g => (env.transform p.1 g).isSome))
                      ∈ st'.result.processed_folders)
              ∧ (∀ q ∈ st'.result.processed_folders, q.1 = p.1
                  → q.2 = p.2.filter (fun g => (env.transform p.1 g).isSome))
              ∧ (∀ x ∈ p.2.filter (fun g => (env.transform p.1 g).isNone),
                  x ∈ st'.result.failed_files))
          ∨ ((∀ q ∈ st'.result.skipped_folders, q.1 ≠ p.1)
              ∧ (∀ q ∈ st'.result.processed_folders, q.1 ≠ p.1)
              ∧ (∀ c ∈ st'.transformCalls, c.1 ≠ p.1))) := by
  intro m
  induction m with
  | nil =>
    intro st st' _ _ _ _ _ p hp
    simp at hp
  | cons hd rest ih =>
    intro st st' h hnd hsk hpr hca p hp
    obtain ⟨f, files⟩ := hd
    have hnd2 : (f :: List.map Prod.fst rest).Nodup := by
      simpa only [List.map_cons] using hnd
    have hndr := (List.nodup_cons.mp hnd2).2
    have hfrest : f ∉ List.map Prod.fst rest := (List.nodup_cons.mp hnd2).1
    have hskf : ∀ q ∈ st.result.skipped_folders, q.1 ≠ f :=
      fun q hq h1 => hsk q hq (key_mem_head f files rest q.1 h1)
    have hprf : ∀ q ∈ st.result.processed_folders, q.1 ≠ f :=
      fun q hq h1 => hpr q hq (key_mem_head f files rest q.1 h1)
    have hcaf : ∀ c ∈ st.transformCalls, c.1 ≠ f :=
      fun c hc h1 => hca c hc (key_mem_head f files rest c.1 h1)
    have hskr : ∀ q ∈ st.result.skipped_folders, q.1 ∉ List.map Prod.fst rest :=
      fun q hq hm => hsk q hq (key_mem_rest f files rest q.1 hm)
    have hprr : ∀ q ∈ st.result.processed_folders, q.1 ∉ List.map Prod.fst rest :=
      fun q hq hm => hpr q hq (key_mem_rest f files rest q.1 hm)
    have hcar : ∀ c ∈ st.transformCalls, c.1 ∉ List.map Prod.fst rest :=
      fun c hc hm => hca c hc (key_mem_rest f files rest c.1 hm)
    by_cases hs : skipsFolder env st f
    · simp only [processGroups, hs, if_true] at h
      rcases List.mem_cons.mp hp with hpf | hprest
      · subst hpf
        obtain ⟨ds, dp, df, dc, e1, e2, e3, e4, m5, m6, m7⟩ := pg_shape env ofn rest _ _ h
        have e1' : st'.result.skipped_folders
            = st.result.skipped_folders ++ [(f, files)] ++ ds := e1
        have e2' : st'.result.processed_folders
            = st.result.processed_folders ++ dp := e2
        have e4' : st'.transformCalls = st.transformCalls ++ dc := e4
        left
        refine ⟨?_, ?_, ?_, ?_⟩
        · rw [e1']
          exact List.mem_append.mpr (Or.inl (List.mem_append.mpr (Or.inr (by simp))))
        · intro q hq h1
          rw [e1'] at hq
          rcases List.mem_append.mp hq with h' | h'
          · rcases List.mem_append.mp h' with h'' | h''
            · exact absurd h1 (hskf q h'')
            · simp only [List.mem_singleton] at h''
              rw [h'']
          · exact absurd ((show q.1 = f from h1) ▸ List.mem_map_of_mem Prod.fst (m5 q h')) hfrest
        · intro q hq h1
          rw [e2'] at hq
          rcases List.mem_append.mp hq with h' | h'
          · exact absurd h1 (hprf q h')
          · exact absurd ((show q.1 = f from h1) ▸ m6 q h') hfrest
        · intro c hc h1
          rw [e4'] at hc
          rcases List.mem_append.mp hc with h' | h'
          · exact absurd h1 (hcaf c h')
          · exact absurd ((show c.1 = f from h1) ▸ m7 c h') hfrest
      · refine ih _ _ h hndr ?_ ?_ ?_ p hprest
        · intro q hq
          have hq' : q ∈ st.result.skipped_folders ++ [(f, files)] := hq
          rcases List.mem_append.mp hq' with h' | h'
          · exact hskr q h'
          · simp only [List.mem_singleton] at h'
            rw [h']
            exact hfrest
        · intro q hq
          exact hprr q hq
        · intro c hc
          exact hcar c hc
    · simp only [processGroups, hs, Bool.false_eq_true, if_false] at h
      cases hn : outputNameFor f ofn with
      | none => rw [hn] at h; simp at h
      | some outName =>
        rw [hn] at h
        by_cases hw : env.writeOk outName
        · simp only [hw, if_true] at h
          have htf := transformFolder_eq env.transform f files
          by_cases hS : (transformFolder env.transform f files).1.isEmpty
          · simp only [hS, if_true] at h
            obtain ⟨ds, dp, df, dc, e1, e2, e3, e4, m5, m6, m7⟩ := pg_shape env ofn rest _ _ h
            have e1' : st'.result.skipped_folders = st.result.skipped_folders ++ ds := e1
            have e2' : st'.result.processed_folders
                = st.result.processed_folders ++ dp := e2
            have e3' : st'.result.failed_files
                = st.result.failed_files
                  ++ (transformFolder env.transform f files).2.1 ++ df := e3
            have e4' : st'.transformCalls
                = st.transformCalls ++ files.map (fun g => (f, g)) ++ dc := e4
            have hfilterNil : files.filter (fun g => (env.transform f g).isSome) = [] := by
              have := hS
              rw [htf] at this
              simpa using this
            rcases List.mem_cons.mp hp with hpf | hprest
            · subst hpf
              right; left
              refine ⟨?_, ?_, ?_, ?_⟩
              · intro q hq h1
                rw [e1'] at hq
                rcases List.mem_append.mp hq with h' | h'
                · exact absurd h1 (hskf q h')
                · exact absurd ((show q.1 = f from h1) ▸ List.mem_map_of_mem Prod.fst (m5 q h')) hfrest
              · intro hne
                exact absurd hfilterNil hne
              · intro q hq h1
                rw [e2'] at hq
                rcases List.mem_append.mp hq with h' | h'
                · exact absurd h1 (hprf q h')
                · exact absurd ((show q.1 = f from h1) ▸ m6 q h') hfrest
              · intro x hx
                rw [e3']
                refine List.mem_append.mpr (Or.inl (List.mem_append.mpr (Or.inr ?_)))
                rw [htf]
                exact hx
            · refine ih _ _ h hndr ?_ ?_ ?_ p hprest
              · intro q hq
                exact hskr q hq
              · intro q hq
                exact hprr q hq
              · intro c hc
                have hc' : c ∈ st.transformCalls ++ files.map (fun g => (f, g)) := hc
                rcases List.mem_append.mp hc' with h' | h'
                · exact hcar c h'
                · obtain ⟨g, _, hg2⟩ := List.mem_map.mp h'
                  rw [← hg2]
                  exact hfrest
          · simp only [hS, Bool.false_eq_true, if_false] at h
            obtain ⟨ds, dp, df, dc, e1, e2, e3, e4, m5, m6, m7⟩ := pg_shape env ofn rest _ _ h
            have e1' : st'.result.skipped_folders = st.result.skipped_folders ++ ds := e1
            have e2' : st'.result.processed_folders
                = st.result.processed_folders
                  ++ [(f, (transformFolder env.transform f files).1)] ++ dp := e2
            have e3' : st'.result.failed_files
                = st.result.failed_files
                  ++ (transformFolder env.transform f files).2.1 ++ df := e3
            have e4' : st'.transformCalls
                = st.transformCalls ++ files.map (fun g => (f, g)) ++ dc := e4
            rcases List.mem_cons.mp hp with hpf | hprest
            · subst hpf
              right; left
              refine ⟨?_, ?_, ?_, ?_⟩
              · intro q hq h1
                rw [e1'] at hq
                rcases List.mem_append.mp hq with h' | h'
                · exact absurd h1 (hskf q h')
                · exact absurd ((show q.1 = f from h1) ▸ List.mem_map_of_mem Prod.fst (m5 q h')) hfrest
              · intro _
                rw [e2']
                refine List.mem_append.mpr (Or.inl (List.mem_append.mpr (Or.inr ?_)))
                have : (transformFolder env.transform f files).1
                    = files.filter (fun g => (env.transform f g).isSome) := by
                  rw [htf]
                rw [← this]
                simp
              · intro q hq h1
                rw [e2'] at hq
                rcases List.mem_append.mp hq with h' | h'
                · rcases List.mem_append.mp h' with h'' | h''
                  · exact absurd h1 (hprf q h'')
                  · simp only [List.mem_singleton] at h''
                    rw [h'']
                    rw [htf]
                · exact absurd ((show q.1 = f from h1) ▸ m6 q h') hfrest
              · intro x hx
                rw [e3']
                refine List.mem_append.mpr (Or.inl (List.mem_append.mpr (Or.inr ?_)))
                rw [htf]
                exact hx
            · refine ih _ _ h hndr ?_ ?_ ?_ p hprest
              · intro q hq
                exact hskr q hq
              · intro q hq
                have hq' : q ∈ st.result.processed_folders
                    ++ [(f, (transformFolder env.transform f files).1)] := hq
                rcases List.mem_append.mp hq' with h' | h'
                · exact hprr q h'
                · simp only [List.mem_singleton] at h'
                  rw [h']
                  exact hfrest
              · intro c hc
                have hc' : c ∈ st.transformCalls ++ files.map (fun g => (f, g)) := hc
                rcases List.mem_append.mp hc' with h' | h'
                · exact hcar c h'
                · obtain ⟨g, _, hg2⟩ := List.mem_map.mp h'
                  rw [← hg2]
                  exact hfrest
        · simp only [hw, Bool.false_eq_true, if_false] at h
          rcases List.mem_cons.mp hp with hpf | hprest
          · subst hpf
            obtain ⟨ds, dp, df, dc, e1, e2, e3, e4, m5, m6, m7⟩ := pg_shape env ofn rest _ _ h
            right; right
            refine ⟨?_, ?_, ?_⟩
            · intro q hq h1
              rw [e1] at hq
              rcases List.mem_append.mp hq with h' | h'
              · exact absurd h1 (hskf q h')
              · exact absurd ((show q.1 = f from h1) ▸ List.mem_map_of_mem Prod.fst (m5 q h')) hfrest
            · intro q hq h1
              rw [e2] at hq
              rcases List.mem_append.mp hq with h' | h'
              · exact absurd h1 (hprf q h')
              · exact absurd ((show q.1 = f from h1) ▸ m6 q h') hfrest
            · intro c hc h1
              rw [e4] at hc
              rcases List.mem_append.mp hc with h' | h'
              · exact absurd h1 (hcaf c h')
              · exact absurd ((show c.1 = f from h1) ▸ m7 c h') hfrest
          · exact ih _ _ h hndr hskr hprr hcar p hprest

/-- C6: for every run and folder group, the filenames recorded across
`processed_folders`, `skipped_folders` and `failed_files` for that group are
pairwise disjoint and their union covers the group: a skipped group is
recorded with exactly its input files and contributes nothing to processing
or transform calls; a handled group has its successes recorded under its key,
all its failures in `failed_files`, and successes/failures partition the
discovered files; an abandoned group (output not writable) is recorded
nowhere. -/
theorem run_folder_partition (env : RunEnv) (ofn : Option String)
    (m : List (String × List String)) (out : RunOutcome)
    (hm : discover_processing_folders env.imports = .ok m)
    (hrun : run env ofn = .ok out)
    (hnd : (m.map Prod.fst).Nodup) :
    ∀ p ∈ m,
      ((p.2.filter (fun g => (env.transform p.1 g).isSome)
          ++ p.2.filter (fun g => (env.transform p.1 g).isNone)).Perm p.2
      ∧ (∀ x ∈ p.2.filter (fun g => (env.transform p.1 g).isSome),
          x ∉ p.2.filter (fun g => (env.transform p.1 g).isNone))
      ∧ ((p ∈ out.result.skipped_folders
            ∧ (∀ q ∈ out.result.skipped_folders, q.1 = p.1 → q.2 = p.2)
            ∧ (∀ q ∈ out.result.processed_folders, q.1 ≠ p.1)
            ∧ (∀ c ∈ out.transformCalls, c.1 ≠ p.1))
          ∨ ((∀ q ∈ out.result.skipped_folders, q.1 ≠ p.1)
              ∧ (p.2.filter (fun g => (env.transform p.1 g).isSome) ≠ []
                  → (p.1, p.2.filter (fun g => (env.transform p.1 g).isSome))
                      ∈ out.result.processed_folders)
              ∧ (∀ q ∈ out.result.processed_folders, q.1 = p.1
                  → q.2 = p.2.filter (fun g => (env.transform p.1 g).isSome))
              ∧ (∀ x ∈ p.2.filter (fun g => (env.transform p.1 g).isNone),
                  x ∈ out.result.failed_files))
          ∨ ((∀ q ∈ out.result.skipped_folders, q.1 ≠ p.1)
              ∧ (∀ q ∈ out.result.processed_folders, q.1 ≠ p.1)
              ∧ (∀ c ∈ out.transformCalls, c.1 ≠ p.1)))) := by
  intro p hp
  refine ⟨?_, ?_, ?_⟩
  · have hfc : p.2.filter (fun g => (env.transform p.1 g).isNone)
        = p.2.filter (fun g => !(env.transform p.1 g).isSome) :=
      List.filter_congr (fun a _ => by cases env.transform p.1 a <;> rfl)
    rw [hfc]
    exact List.filter_append_perm _ _
  · intro x hx hx'
    have h1 := (List.mem_filter.mp hx).2
    have h2 := (List.mem_filter.mp hx').2
    cases henv : env.transform p.1 x with
    | some b => rw [henv] at h2; simp at h2
    | none => rw [henv] at h1; simp at h1
  · cases hpg : processGroups env ofn m {} with
    | error e => simp [run, hm, hpg] at hrun
    | ok st =>
      by_cases hr : env.reportOk
      · have hout : run env ofn
            = .ok ⟨{ st.result with success := !st.result.output_files.isEmpty },
                st.written, st.transformCalls⟩ := by
          simp [run, hm, hpg, hr]
        rw [hout] at hrun
        injection hrun with h2
        have hmain := pg_partition env ofn m {} st hpg hnd
          (by simp) (by simp) (by simp) p hp
        rw [← h2]
        exact hmain
      · simp [run, hm, hpg, hr] at hrun

/-- Witness for `run_folder_partition`: the successes and failures of the
root group of the scenario environment partition its files. -/
theorem run_folder_partition_witness :
    (["a.pdf", "b.pdf"].filter (fun g => (envScenario.transform "_root" g).isSome)
        ++ ["a.pdf", "b.pdf"].filter
            (fun g => (envScenario.transform "_root" g).isNone)).Perm
      ["a.pdf", "b.pdf"] :=
  (run_folder_partition envScenario (some "combined_root.md")
    [("_root", ["a.pdf", "b.pdf"]), ("reports", ["q.pdf"])]
    { result :=
        { success := true
          output_files := ["combined_root.md", "reports.md"]
          processed_folders := [("_root", ["a.pdf", "b.pdf"]), ("reports", ["q.pdf"])]
          skipped_folders := []
          failed_files := []
          error_message := none }
      written :=
        [⟨"combined_root.md", ["MD:a.pdf", "MD:b.pdf"]⟩, ⟨"reports.md", ["MD:q.pdf"]⟩]
      transformCalls := [("_root", "a.pdf"), ("_root", "b.pdf"), ("reports", "q.pdf")] }
    (by decide) (by decide) (by decide) ("_root", ["a.pdf", "b.pdf"]) (by decide)).1

/-! ### Claim C7 -/


/-- Inserting into a sorted string list never yields the empty list. -/
theorem insertStrAsc_ne_nil (a : String) : ∀ l : List String, insertStrAsc a l ≠ [] := by
  intro l
  cases l with
  | nil => simp [insertStrAsc]
  | cons b rest =>
    by_cases h : strLe a b
    · simp [insertStrAsc, h]
    · simp [insertStrAsc, h]

/-- String sorting returns the empty list only for the empty list. -/
theorem sortStrings_eq_nil (l : List String) : sortStrings l = [] ↔ l = [] := by
  cases l with
  | nil => simp [sortStrings]
  | cons a rest =>
    constructor
    · intro h
      exact absurd h (insertStrAsc_ne_nil a (sortStrings rest))
    · intro h
      simp at h

/-- The processing map is empty exactly when neither the root nor any
non-hidden immediate subdirectory holds a supported file. -/
theorem discoveryMap_eq_nil_iff (d : ImportsDir) :
    discoveryMap d = []
      ↔ d.rootFiles.filter isSupportedFile = []
        ∧ ∀ sd ∈ d.subdirs, startsWithDot sd.name = false →
            sd.files.filter isSupportedFile = [] := by
  unfold discoveryMap
  rw [List.append_eq_nil]
  constructor
  · intro h
    constructor
    · by_cases hr : (folderFilesOf d.rootFiles).isEmpty
      · rw [List.isEmpty_eq_true, folderFilesOf, sortStrings_eq_nil] at hr
        exact hr
      · simp [hr] at h
    · intro sd hsd hdot
      have h2 := List.filterMap_eq_nil_iff.mp h.2 sd hsd
      simp only [hdot, Bool.false_eq_true, if_false] at h2
      by_cases hf : (folderFilesOf sd.files).isEmpty
      · rw [List.isEmpty_eq_true, folderFilesOf, sortStrings_eq_nil] at hf
        exact hf
      · simp [hf] at h2
  · intro h
    constructor
    · have hr : (folderFilesOf d.rootFiles).isEmpty = true := by
        rw [List.isEmpty_eq_true, folderFilesOf, sortStrings_eq_nil]
        exact h.1
      simp [hr]
    · rw [List.filterMap_eq_nil_iff]
      intro sd hsd
      by_cases hdot : startsWithDot sd.name
      · simp [hdot]
      · have hdot' : startsWithDot sd.name = false := by simpa using hdot
        have hf : (folderFilesOf sd.files).isEmpty = true := by
          rw [List.isEmpty_eq_true, folderFilesOf, sortStrings_eq_nil]
          exact h.2 sd hsd hdot'
        simp [hdot', hf]

/-- C7: discovery fails with `NotFound` exactly when the imports directory
does not exist, and fails with `NoSupportedFiles` exactly when neither the
root nor any non-hidden immediate subdirectory holds a supported file; the
`NoSupportedFiles` message names every member of the supported-format set. -/
theorem discover_error_characterization (d : ImportsDir) :
    (discover_processing_folders d = .error (.notFound importsNotFoundMessage)
        ↔ d.present = false)
      ∧ (discover_processing_folders d
            = .error (.noSupportedFiles noSupportedFilesMessage)
          ↔ d.present = true
              ∧ d.rootFiles.filter isSupportedFile = []
              ∧ ∀ sd ∈ d.subdirs, startsWithDot sd.name = false →
                  sd.files.filter isSupportedFile = [])
      ∧ SUPPORTED_FORMATS.all
          (fun fmt => listContainsSeg fmt.data noSupportedFilesMessage.data) = true := by
  refine ⟨?_, ?_, by decide⟩
  · cases hp : d.present with
    | false => simp [discover_processing_folders, hp]
    | true =>
      by_cases hm : (discoveryMap d).isEmpty
      · simp [discover_processing_folders, hp, hm]
      · simp [discover_processing_folders, hp, hm]
  · cases hp : d.present with
    | false => simp [discover_processing_folders, hp]
    | true =>
      by_cases hm : (discoveryMap d).isEmpty
      · rw [List.isEmpty_eq_true, discoveryMap_eq_nil_iff] at hm
        simp only [discover_processing_folders, hp, Bool.not_true, Bool.false_eq_true,
          if_false]
        have hm' : (discoveryMap d).isEmpty = true := by
          rw [List.isEmpty_eq_true, discoveryMap_eq_nil_iff]
          exact hm
        simp only [hm', if_true]
        constructor
        · intro _
          exact ⟨trivial, hm.1, hm.2⟩
        · intro _
          trivial
      · simp only [discover_processing_folders, hp, Bool.not_true, Bool.false_eq_true,
          if_false]
        have hm' : (discoveryMap d).isEmpty = false := by simpa using hm
        simp only [hm', Bool.false_eq_true, if_false]
        have hne : discoveryMap d ≠ [] := by
          intro hnil
          rw [hnil] at hm'
          simp at hm'
        constructor
        · intro h
          simp at h
        · intro h
          exact absurd ((discoveryMap_eq_nil_iff d).mpr ⟨h.2.1, h.2.2⟩) hne

/-- Witness for `discover_error_characterization`: a present imports
directory with no supported files anywhere fails with `NoSupportedFiles`. -/
theorem discover_error_characterization_witness :
    discover_processing_folders ⟨true, ["x.bin"], [⟨".git", ["a.pdf"]⟩, ⟨"docs", ["r.bin"]⟩]⟩
      = .error (.noSupportedFiles noSupportedFilesMessage) :=
  (discover_error_characterization _).2.1.mpr (by decide)

/-! ### Claim C9 -/

/-- C9: when the input root directly contains supported files (so the
`"_root"` group exists, placed first by discovery) and that group is not
skipped, calling `run` with `output_filename` omitted (`None`) crashes while
building the root output path (`exports_path / None`) instead of falling back
to `OUTPUT_FILENAME`. -/
theorem run_root_none_crashes (env : RunEnv)
    (hp : env.imports.present = true)
    (hroot : (folderFilesOf env.imports.rootFiles).isEmpty = false)
    (hskip : skipsFolder env {} "_root" = false) :
    run env none = .error .rootOutputNameNone := by
  have hmap : discoveryMap env.imports
      = ("_root", folderFilesOf env.imports.rootFiles)
        :: env.imports.subdirs.filterMap (fun sd =>
            if startsWithDot sd.name then none
            else
              if (folderFilesOf sd.files).isEmpty then none
              else some (sd.name, folderFilesOf sd.files)) := by
    simp [discoveryMap, hroot]
  have hd : discover_processing_folders env.imports
      = .ok (discoveryMap env.imports) := by
    rw [discover_processing_folders, hmap]
    simp [hp]
  have hpg : processGroups env none (discoveryMap env.imports) {} = .error .rootOutputNameNone := by
    rw [hmap]
    simp [processGroups, hskip, outputNameFor]
  simp [run, hd, hpg]

/-- Witness for `run_root_none_crashes` at the concrete scenario
environment. -/
theorem run_root_none_crashes_witness :
    run envScenario none = .error .rootOutputNameNone :=
  run_root_none_crashes envScenario (by decide) (by decide) (by decide)

/-! ### Claim C10 -/

/-- C10: whenever `run` returns normally, the returned result's
`error_message` is `None`: no code path in the Orchestrator assigns it. -/
theorem run_error_message_none (env : RunEnv) (ofn : Option String) (out : RunOutcome)
    (h : run env ofn = .ok out) : out.result.error_message = none := by
  cases hd : discover_processing_folders env.imports with
  | error e => simp [run, hd] at h
  | ok m =>
    cases hp : processGroups env ofn m {} with
    | error e => simp [run, hd, hp] at h
    | ok st =>
      by_cases hr : env.reportOk
      · have hout : run env ofn
            = .ok ⟨{ st.result with success := !st.result.output_files.isEmpty },
                st.written, st.transformCalls⟩ := by
          simp [run, hd, hp, hr]
        rw [hout] at h
        injection h with h2
        rw [← h2]
        exact (processGroups_error_message env ofn m {} st hp).trans rfl
      · simp [run, hd, hp, hr] at h

/-- Witness for `run_error_message_none` at a concrete environment whose only
folder is abandoned by a failing output write. -/
theorem run_error_message_none_witness :
    (RunOutcome.mk {} [] []).result.error_message = none :=
  run_error_message_none envRootAbandoned (some "o.md") (RunOutcome.mk {} [] [])
    (by decide)

/-! ### Claim C8 -/

/-- A kept, non-collapsible character is a good character. -/
theorem keep_not_coll_good (c : Char) (h1 : keepChar c = true)
    (h2 : isCollapsible c = false) : goodChar c = true := by
  cases hw : isWordChar c <;> cases hs : isSpaceChar c <;> cases hh : (c == '-') <;>
    simp_all [keepChar, isCollapsible, goodChar]

/-- A good character is kept. -/
theorem good_keep (c : Char) (h : goodChar c = true) : keepChar c = true := by
  cases hw : isWordChar c <;> cases hs : isSpaceChar c <;> cases hh : (c == '-') <;>
    simp_all [keepChar, goodChar]

/-- The only good collapsible character is the underscore. -/
theorem coll_good_eq_underscore (c : Char) (h1 : goodChar c = true)
    (h2 : isCollapsible c = true) : c = '_' := by
  have hs : isSpaceChar c = false := by
    cases hs' : isSpaceChar c
    · rfl
    · simp [goodChar, hs'] at h1
  have hu : (c == '_') = true := by
    simp only [isCollapsible, hs, Bool.false_or] at h2
    exact h2
  exact eq_of_beq hu

/-- Characters of the first substitution pass are all kept. -/
theorem sub1_chars (x : List Char) :
    ∀ c ∈ x.map (fun c => if keepChar c then c else '_'), keepChar c = true := by
  intro c hc
  obtain ⟨a, _, ha2⟩ := List.mem_map.mp hc
  by_cases hk : keepChar a
  · rw [if_pos hk] at ha2
    rw [← ha2]
    exact hk
  · rw [if_neg hk] at ha2
    rw [← ha2]
    decide

/-- Characters after collapsing runs are all good, provided the input
characters are all kept. -/
theorem collapseRuns_chars : ∀ l : List Char,
    (∀ c ∈ l, keepChar c = true) → ∀ c ∈ collapseRuns l, goodChar c = true := by
  intro l
  induction l with
  | nil =>
    intro _ c hc
    simp [collapseRuns] at hc
  | cons a rest ih =>
    intro hall c hc
    cases rest with
    | nil =>
      simp only [collapseRuns] at hc
      by_cases ha : isCollapsible a
      · rw [if_pos ha] at hc
        simp at hc
        rw [hc]
        decide
      · rw [if_neg ha] at hc
        simp at hc
        rw [hc]
        exact keep_not_coll_good a (hall a (by simp)) (by simpa using ha)
    | cons d t =>
      simp only [collapseRuns] at hc
      by_cases had : (isCollapsible a && isCollapsible d) = true
      · rw [if_pos had] at hc
        exact ih (fun x hx => hall x (List.mem_cons.mpr (Or.inr hx))) c hc
      · rw [if_neg had] at hc
        rcases List.mem_cons.mp hc with h | h
        · by_cases ha : isCollapsible a
          · rw [h, if_pos ha]
            decide
          · rw [h, if_neg ha]
            exact keep_not_coll_good a (hall a (by simp)) (by simpa using ha)
        · exact ih (fun x hx => hall x (List.mem_cons.mpr (Or.inr hx))) c h

/-- Head of a collapsed non-empty list. -/
theorem collapseRuns_head : ∀ (l : List Char) (d : Char),
    (collapseRuns (d :: l)).head? = some (if isCollapsible d then '_' else d) := by
  intro l
  induction l with
  | nil =>
    intro d
    by_cases hd : isCollapsible d
    · show (if isCollapsible d then ['_'] else [d]).head? = _
      rw [if_pos hd, if_pos hd]
      rfl
    · show (if isCollapsible d then ['_'] else [d]).head? = _
      rw [if_neg hd, if_neg hd]
      rfl
  | cons e t ih =>
    intro d
    by_cases hde : (isCollapsible d && isCollapsible e) = true
    · show (if isCollapsible d && isCollapsible e then collapseRuns (e :: t)
          else _ :: collapseRuns (e :: t)).head? = _
      rw [if_pos hde, ih e]
      have hde' := hde
      rw [Bool.and_eq_true] at hde'
      rw [if_pos hde'.1, if_pos hde'.2]
    · show (if isCollapsible d && isCollapsible e then collapseRuns (e :: t)
          else _ :: collapseRuns (e :: t)).head? = _
      rw [if_neg hde]
      rfl

/-- Collapsing runs leaves no two adjacent collapsible characters. -/
theorem collapseRuns_noadj : ∀ l : List Char,
    List.Chain' (fun a b => isCollapsible a = false ∨ isCollapsible b = false)
      (collapseRuns l) := by
  intro l
  induction l with
  | nil => simp [collapseRuns]
  | cons a rest ih =>
    cases rest with
    | nil =>
      by_cases ha : isCollapsible a
      · show List.Chain' _ (if isCollapsible a then ['_'] else [a])
        rw [if_pos ha]
        simp
      · show List.Chain' _ (if isCollapsible a then ['_'] else [a])
        rw [if_neg ha]
        simp
    | cons d t =>
      by_cases had : (isCollapsible a && isCollapsible d) = true
      · show List.Chain' _ (if isCollapsible a && isCollapsible d then collapseRuns (d :: t)
            else _ :: collapseRuns (d :: t))
        rw [if_pos had]
        exact ih
      · show List.Chain' _ (if isCollapsible a && isCollapsible d then collapseRuns (d :: t)
            else _ :: collapseRuns (d :: t))
        rw [if_neg had]
        rw [List.chain'_cons']
        refine ⟨?_, ih⟩
        intro b hb
        rw [collapseRuns_head t d] at hb
        simp only [Option.mem_def, Option.some.injEq] at hb
        by_cases ha : isCollapsible a
        · have hd : isCollapsible d = false := by
            cases hdd : isCollapsible d
            · rfl
            · exact absurd (show (isCollapsible a && isCollapsible d) = true by
                simp [ha, hdd]) had
          right
          rw [← hb, if_neg (by simp [hd] : ¬isCollapsible d = true)]
          exact hd
        · left
          rw [if_neg ha]
          simpa using ha

/-- Any head of a drop-while result falsifies the predicate. -/
theorem head_dropWhile_false (p : Char → Bool) :
    ∀ (l : List Char) (c : Char), (l.dropWhile p).head? = some c → p c = false := by
  intro l
  induction l with
  | nil =>
    intro c h
    simp at h
  | cons a t ih =>
    intro c h
    rw [List.dropWhile_cons] at h
    by_cases ha : p a
    · rw [if_pos ha] at h
      exact ih c h
    · rw [if_neg ha] at h
      simp only [List.head?_cons, Option.some.injEq] at h
      rw [← h]
      simpa using ha

/-- Stripping underscores only removes characters. -/
theorem mem_stripUnderscores (l : List Char) (c : Char) (h : c ∈ stripUnderscores l) :
    c ∈ l := by
  unfold stripUnderscores at h
  rw [List.mem_reverse] at h
  have h1 := (List.dropWhile_sublist (· == '_')).mem h
  rw [List.mem_reverse] at h1
  exact (List.dropWhile_sublist (· == '_')).mem h1

/-- Stripping underscores preserves the no-adjacent-collapsibles property. -/
theorem chain_stripUnderscores (l : List Char)
    (h : List.Chain' (fun a b => isCollapsible a = false ∨ isCollapsible b = false) l) :
    List.Chain' (fun a b => isCollapsible a = false ∨ isCollapsible b = false)
      (stripUnderscores l) := by
  unfold stripUnderscores
  have h1 : List.Chain' (fun a b => isCollapsible a = false ∨ isCollapsible b = false)
      (l.dropWhile (· == '_')) := by
    have hd := List.takeWhile_append_dropWhile (· == '_') l
    rw [← hd] at h
    exact h.right_of_append
  have h2 : List.Chain' (fun a b => isCollapsible a = false ∨ isCollapsible b = false)
      (l.dropWhile (· == '_')).reverse := by
    rw [List.chain'_reverse]
    exact h1.imp (fun a b hab => hab.symm)
  have h3 : List.Chain' (fun a b => isCollapsible a = false ∨ isCollapsible b = false)
      ((l.dropWhile (· == '_')).reverse.dropWhile (· == '_')) := by
    have hd := List.takeWhile_append_dropWhile (· == '_') (l.dropWhile (· == '_')).reverse
    rw [← hd] at h2
    exact h2.right_of_append
  rw [List.chain'_reverse]
  exact h3.imp (fun a b hab => hab.symm)

/-- The head of a stripped list is not an underscore. -/
theorem head_stripUnderscores (l : List Char) (c : Char)
    (h : (stripUnderscores l).head? = some c) : (c == '_') = false := by
  unfold stripUnderscores at h
  have hdec := List.takeWhile_append_dropWhile (· == '_') (l.dropWhile (· == '_')).reverse
  have hm2 : l.dropWhile (· == '_')
      = ((l.dropWhile (· == '_')).reverse.dropWhile (· == '_')).reverse
        ++ ((l.dropWhile (· == '_')).reverse.takeWhile (· == '_')).reverse := by
    calc l.dropWhile (· == '_') = (l.dropWhile (· == '_')).reverse.reverse :=
          (List.reverse_reverse _).symm
      _ = (((l.dropWhile (· == '_')).reverse.takeWhile (· == '_'))
            ++ ((l.dropWhile (· == '_')).reverse.dropWhile (· == '_'))).reverse := by
          rw [hdec]
      _ = _ := List.reverse_append _ _
  cases hdr : ((l.dropWhile (· == '_')).reverse.dropWhile (· == '_')).reverse with
  | nil =>
    rw [hdr] at h
    simp at h
  | cons a xs =>
    rw [hdr] at h
    simp only [List.head?_cons, Option.some.injEq] at h
    have hmh : (l.dropWhile (· == '_')).head? = some a := by
      rw [hm2, hdr]
      rfl
    have ha := head_dropWhile_false (· == '_') l a hmh
    rw [← h]
    exact ha

/-- The last character of a stripped list is not an underscore. -/
theorem last_stripUnderscores (l : List Char) (c : Char)
    (h : (stripUnderscores l).getLast? = some c) : (c == '_') = false := by
  unfold stripUnderscores at h
  rw [List.getLast?_reverse] at h
  exact head_dropWhile_false (· == '_') _ c h

/-- The substitution pass fixes lists of kept characters. -/
theorem map_keep_id (l : List Char) (h : ∀ c ∈ l, keepChar c = true) :
    l.map (fun c => if keepChar c then c else '_') = l := by
  induction l with
  | nil => rfl
  | cons a t ih =>
    simp only [List.map_cons]
    rw [if_pos (h a (by simp)), ih (fun c hc => h c (List.mem_cons.mpr (Or.inr hc)))]

/-- Collapsing runs fixes lists of good characters with no adjacent
collapsibles. -/
theorem collapseRuns_fixpoint : ∀ l : List Char,
    (∀ c ∈ l, goodChar c = true) →
    List.Chain' (fun a b => isCollapsible a = false ∨ isCollapsible b = false) l →
    collapseRuns l = l := by
  intro l
  induction l with
  | nil =>
    intro _ _
    rfl
  | cons a rest ih =>
    intro hall hch
    cases rest with
    | nil =>
      show (if isCollapsible a then ['_'] else [a]) = [a]
      by_cases ha : isCollapsible a
      · rw [if_pos ha, coll_good_eq_underscore a (hall a (by simp)) ha]
      · rw [if_neg ha]
    | cons d t =>
      have hrel := (List.chain'_cons'.mp hch).1 d (by simp)
      have had : (isCollapsible a && isCollapsible d) = false := by
        rcases hrel with h | h <;> simp [h]
      show (if isCollapsible a && isCollapsible d then collapseRuns (d :: t)
          else (if isCollapsible a then '_' else a) :: collapseRuns (d :: t)) = _
      rw [had]
      simp only [Bool.false_eq_true, if_false]
      rw [ih (fun c hc => hall c (List.mem_cons.mpr (Or.inr hc))) hch.tail]
      by_cases ha : isCollapsible a
      · rw [if_pos ha, coll_good_eq_underscore a (hall a (by simp)) ha]
      · rw [if_neg ha]

/-- Stripping fixes lists whose boundary characters are not underscores. -/
theorem stripUnderscores_fixpoint (l : List Char)
    (h1 : ∀ c, l.head? = some c → (c == '_') = false)
    (h2 : ∀ c, l.getLast? = some c → (c == '_') = false) :
    stripUnderscores l = l := by
  have e1 : l.dropWhile (· == '_') = l := by
    cases hl : l with
    | nil => rfl
    | cons a t =>
      rw [List.dropWhile_cons]
      rw [h1 a (by rw [hl]; rfl)]
      simp
  unfold stripUnderscores
  rw [e1]
  have e2 : l.reverse.dropWhile (· == '_') = l.reverse := by
    cases hr : l.reverse with
    | nil => rfl
    | cons a t =>
      rw [List.dropWhile_cons]
      have hla : l.getLast? = some a := by
        rw [← List.head?_reverse, hr]
        rfl
      rw [h2 a hla]
      simp
  rw [e2, List.reverse_reverse]

/-- Splitting on an absent separator yields the whole list. -/
theorem splitOnChar_not_mem (sep : Char) :
    ∀ l : List Char, sep ∉ l → splitOnChar sep l = [l] := by
  intro l
  induction l with
  | nil =>
    intro _
    rfl
  | cons c rest ih =>
    intro h
    have hc : (c == sep) = false :=
      beq_eq_false_iff_ne.mpr (fun he => h (by rw [he]; simp))
    simp [splitOnChar, ih (fun hm => h (List.mem_cons.mpr (Or.inr hm))), hc]

/-- Without a dot there is no last-dot index. -/
theorem lastDotIdx_not_mem : ∀ l : List Char, ('.' : Char) ∉ l → lastDotIdx l = none := by
  intro l
  induction l with
  | nil =>
    intro _
    rfl
  | cons c rest ih =>
    intro h
    have hc : (c == '.') = false :=
      beq_eq_false_iff_ne.mpr (fun he => h (by rw [he]; simp))
    simp [lastDotIdx, ih (fun hm => h (List.mem_cons.mpr (Or.inr hm))), hc]

/-- The stem operation fixes non-empty names without slashes or dots. -/
theorem pyStem_fixpoint (l : List Char) (hne : l ≠ [])
    (hslash : ('/' : Char) ∉ l) (hdot : ('.' : Char) ∉ l) : pyStem l = l := by
  unfold pyStem pathFinalName
  rw [splitOnChar_not_mem '/' l hslash]
  have h1 : l.isEmpty = false := by
    cases l with
    | nil => exact absurd rfl hne
    | cons a t => rfl
  have h2 : (l == ['.']) = false :=
    beq_eq_false_iff_ne.mpr (fun he => hdot (by rw [he]; simp))
  have h3 : (l != ['.']) = true := by
    simp [bne, h2]
  have hfil : [l].filter (fun p => !p.isEmpty && p != ['.']) = [l] := by
    simp [List.filter, h1, h3]
  rw [hfil]
  show pySplitExtStem l = l
  unfold pySplitExtStem
  rw [lastDotIdx_not_mem l hdot]

/-- The sanitized core always produces a good, collapse-free,
boundary-underscore-free list. -/
theorem sanitizeList_invariants (x : List Char) :
    (∀ c ∈ sanitizeList x, goodChar c = true)
    ∧ List.Chain' (fun a b => isCollapsible a = false ∨ isCollapsible b = false)
        (sanitizeList x)
    ∧ (∀ c, (sanitizeList x).head? = some c → (c == '_') = false)
    ∧ (∀ c, (sanitizeList x).getLast? = some c → (c == '_') = false) := by
  refine ⟨?_, ?_, ?_, ?_⟩
  · intro c hc
    exact collapseRuns_chars _ (sub1_chars _) c (mem_stripUnderscores _ c hc)
  · exact chain_stripUnderscores _ (collapseRuns_noadj _)
  · intro c hc
    exact head_stripUnderscores _ c hc
  · intro c hc
    exact last_stripUnderscores _ c hc

/-- The sanitized core fixes its own non-empty outputs. -/
theorem sanitizeList_fixpoint (l : List Char) (hne : l ≠ [])
    (hgood : ∀ c ∈ l, goodChar c = true)
    (hch : List.Chain' (fun a b => isCollapsible a = false ∨ isCollapsible b = false) l)
    (hh : ∀ c, l.head? = some c → (c == '_') = false)
    (hl : ∀ c, l.getLast? = some c → (c == '_') = false) :
    sanitizeList l = l := by
  have hslash : ('/' : Char) ∉ l := fun hm => absurd (hgood '/' hm) (by decide)
  have hdot : ('.' : Char) ∉ l := fun hm => absurd (hgood '.' hm) (by decide)
  unfold sanitizeList
  rw [pyStem_fixpoint l hne hslash hdot]
  rw [map_keep_id l (fun c hc => good_keep c (hgood c hc))]
  rw [collapseRuns_fixpoint l hgood hch]
  exact stripUnderscores_fixpoint l hh hl

/-- C8: the folder-id sanitization is idempotent:
`sanitize_filename (sanitize_filename x) = sanitize_filename x` for every
string `x`. -/
theorem sanitize_filename_idempotent (s : String) :
    sanitize_filename (sanitize_filename s) = sanitize_filename s := by
  by_cases h : (sanitizeList s.data).isEmpty = true
  · have h1 : sanitize_filename s = "untitled" := by
      unfold sanitize_filename
      rw [h]
      simp
    rw [h1]
    decide
  · have hne : sanitizeList s.data ≠ [] := by
      intro hnil
      rw [hnil] at h
      simp at h
    have h1 : sanitize_filename s = String.mk (sanitizeList s.data) := by
      unfold sanitize_filename
      rw [show ((sanitizeList s.data).isEmpty = false) from (by simpa using h)]
      simp
    rw [h1]
    obtain ⟨hg, hc, hhd, hlt⟩ := sanitizeList_invariants s.data
    have hfix : sanitizeList (String.mk (sanitizeList s.data)).data
        = sanitizeList s.data :=
      sanitizeList_fixpoint _ hne hg hc hhd hlt
    unfold sanitize_filename
    rw [hfix]
    rw [show ((sanitizeList s.data).isEmpty = false) from (by simpa using h)]
    simp

end PdfsToMarkdown
